import Mathlib

/-!
Shallow embedding of the schema-driven CRUD editor:

* `useCrud` (the remote collection store hook): `fetchItems`, `createItem`,
  `updateItem`, `deleteItem`, acting on the snapshot list `items`.
* `CrudTable.handleSubmit`: dirty-index computation
  (`item.id === 0 || JSON.stringify(item) !== JSON.stringify(items[idx])`),
  the sequential per-row save loop, and `resetForm({ values })`.
* `page.handleSaveUsers`: per-row dispatch to `createItem` / `updateItem`.
* `CrudTable.handleDelete` together with `confirmDelete` from `toast.ts`.
* `userConfig.emptyItem` from `user.config.ts`.

Rows are flat records of string-valued fields plus a numeric identifier
(sentinel `0` = not yet persisted).  `JSON.stringify` equality of two flat
records with a fixed key order is structural equality, so row comparison is
Lean structural equality on `Row`.  The JS object spread `{...i, ...item}`
is embedded as `spreadMerge`.  The `for ... await` loops are embedded as
sequential folds over the list of issued store calls; a thrown exception is
embedded by the index of the persistence call that throws (`failAt`).
-/

namespace Crud

/-- An entity record: numeric identifier plus ordered named string fields.
Identifier `0` is the "not yet persisted" sentinel. -/
structure Row where
  id : Nat
  fields : List (String × String)
deriving DecidableEq

/-- Total indexing helper: `l[i]` with an arbitrary default row. -/
def rowAt (l : List Row) (i : Nat) : Row := (l[i]?).getD ⟨0, []⟩

/-- Keys of a row's field list. -/
def fieldKeys (r : Row) : List String := r.fields.map Prod.fst

/-- First value bound to a key in a field list. -/
def lookupField : List (String × String) → String → Option String
  | [], _ => none
  | p :: rest, k => if p.1 = k then some p.2 else lookupField rest k

/-- JS object spread `{...base, ...upd}` on field lists: keys of `base` keep
their position with values overridden by `upd` where present; keys only in
`upd` are appended in `upd`'s order. -/
def spreadFields (base upd : List (String × String)) : List (String × String) :=
  base.map (fun p =>
    match lookupField upd p.1 with
    | some v => (p.1, v)
    | none => p) ++
  upd.filter (fun q => (lookupField base q.1).isNone)

/-- JS object spread `{...base, ...upd}` on rows (both carry an `id` key, so
the update's identifier wins). -/
def spreadMerge (base upd : Row) : Row := ⟨upd.id, spreadFields base.fields upd.fields⟩

/-- A persistence request issued against the remote collection store. -/
inductive StoreCall where
  | create (row : Row)
  | update (id : Nat) (row : Row)
  | delete (id : Nat)
deriving DecidableEq

/-- `useCrud.createItem`: POST, then append `{...item, id: Date.now()}` to the
snapshot; the clock value is the explicit parameter `now`. -/
def createItem (items : List Row) (item : Row) (now : Nat) : List Row :=
  items ++ [{ item with id := now }]

/-- `useCrud.updateItem`: PUT, then `prev.map(i => i.id === id ? {...i, ...item} : i)`. -/
def updateItem (items : List Row) (id : Nat) (item : Row) : List Row :=
  items.map (fun i => if i.id = id then spreadMerge i item else i)

/-- `useCrud.deleteItem`: DELETE, then `prev.filter(i => i.id !== id)`. -/
def deleteItem (items : List Row) (id : Nat) : List Row :=
  items.filter (fun i => decide (i.id ≠ id))

/-- `useCrud.fetchItems`: `transformer ? transformer(data) : data.slice(0, 5)`. -/
def fetchItems (data : List Row) (transform : Option (List Row → List Row)) : List Row :=
  match transform with
  | some t => t data
  | none => data.take 5

/-- Effect of one store call on the snapshot (the `setItems` updater that runs
after the call's `fetch` resolves). -/
def applyCall (items : List Row) (now : Nat) : StoreCall → List Row
  | .create row => createItem items row now
  | .update id row => updateItem items id row
  | .delete id => deleteItem items id

/-- Sequential execution of a list of store calls, in order. -/
def runCalls (items : List Row) (calls : List StoreCall) (now : Nat) : List Row :=
  calls.foldl (fun acc c => applyCall acc now c) items

/-- `CrudTable.handleSubmit` line 35: `values.items.map((item, idx) =>
(item.id === 0 || JSON.stringify(item) !== JSON.stringify(items[idx]) ? idx : -1))`,
written as map-with-index recursion starting at index `i`. -/
def markDirty (s : List Row) : Nat → List Row → List Int
  | _, [] => []
  | i, item :: rest =>
    (if item.id = 0 ∨ some item ≠ s[i]? then (i : Int) else -1) :: markDirty s (i + 1) rest

/-- `CrudTable.handleSubmit` lines 34-36: the marked list filtered by
`idx !== -1`; `b` is the edit buffer (`values.items`), `s` the snapshot prop
(`items`). -/
def dirtyIndexes (b s : List Row) : List Int :=
  (markDirty s 0 b).filter (fun x => decide (x ≠ -1))

/-- The `(index, row)` pairs of the dirty positions, in ascending index order;
specification counterpart of `dirtyIndexes` (bridged by `dirtyIndexes_eq`). -/
def dirtyPairs (s : List Row) : Nat → List Row → List (Nat × Row)
  | _, [] => []
  | i, item :: rest =>
    if item.id = 0 ∨ some item ≠ s[i]? then
      (i, item) :: dirtyPairs s (i + 1) rest
    else dirtyPairs s (i + 1) rest

/-- `page.handleSaveUsers` per dirty row: `user.id === 0 ? createUser(user)
: updateUser(user.id, user)`. -/
def callFor (row : Row) : StoreCall :=
  if row.id = 0 then .create row else .update row.id row

/-- The persistence calls the save loop issues, one per dirty index in order
(`for (const idx of dirtyIndexes) await onSave([values.items[idx]], [0])`). -/
def saveCallsPlanned (b s : List Row) : List StoreCall :=
  (dirtyIndexes b s).map (fun i => callFor (rowAt b i.toNat))

/-- Transient notification shown by `handleSubmit`. -/
inductive Toast where
  | info
  | success (n : Nat)
  | error
deriving DecidableEq

/-- Observable outcome of one `handleSubmit` run: the persistence calls
attempted (in order), the store snapshot afterwards, the form's reset
baseline (`resetForm`), and the notification. -/
structure SaveOutcome where
  callsMade : List StoreCall
  storeItems : List Row
  formBaseline : List Row
  toast : Toast
deriving DecidableEq

/-- One run of `CrudTable.handleSubmit` with buffer `b`, snapshot `s` and
current form baseline `fb`.  `failAt = some f` means the `f`-th persistence
call (0-based) throws: it is attempted but its store mutation does not run,
no later call is attempted, `resetForm` is skipped and the error toast is
shown.  `failAt = none` (or `f` past the end) is the all-succeed run:
every call mutates the store and `resetForm({ values })` makes the submitted
buffer the new form baseline. -/
def saveRun (b s fb : List Row) (now : Nat) (failAt : Option Nat) : SaveOutcome :=
  let planned := saveCallsPlanned b s
  if planned = [] then ⟨[], s, fb, .info⟩
  else
    match failAt with
    | none => ⟨planned, runCalls s planned now, b, .success planned.length⟩
    | some f =>
      if f < planned.length then
        ⟨planned.take (f + 1), runCalls s (planned.take f) now, fb, .error⟩
      else ⟨planned, runCalls s planned now, b, .success planned.length⟩

/-- `CrudTable.handleDelete` confirmed path: `if (item.id !== 0) await
onDelete(item.id); remove(index)`.  Returns (calls attempted, edit buffer
afterwards, store snapshot afterwards).  `throws` means the delete call's
`fetch` rejects: the call was attempted but the store updater and the
subsequent `remove(index)` never run. -/
def handleDeleteRun (item : Row) (b s : List Row) (index : Nat) (throws : Bool) :
    List StoreCall × List Row × List Row :=
  if item.id = 0 then ([], b.eraseIdx index, s)
  else if throws then ([.delete item.id], b, s)
  else ([.delete item.id], b.eraseIdx index, applyCall s 0 (.delete item.id))

/-- Resolution of the `confirmDelete` toast: the Delete action, the Cancel
action (`onClick: () => {}`), or auto-expiry after the 5s duration. -/
inductive ConfirmDecision where
  | confirm
  | cancel
  | expire
deriving DecidableEq

/-- `confirmDelete` from `toast.ts`: only the Delete action runs `onConfirm`;
Cancel is a no-op and expiry dismisses the toast without running anything. -/
def confirmDelete {α : Type} (decision : ConfirmDecision) (state : α) (onConfirm : α → α) : α :=
  match decision with
  | .confirm => onConfirm state
  | .cancel => state
  | .expire => state

/-- Full row-deletion flow: `handleDelete` wraps the confirmed path in
`confirmDelete`. -/
def deleteFlow (d : ConfirmDecision) (item : Row) (b s : List Row) (index : Nat)
    (throws : Bool) : List StoreCall × List Row × List Row :=
  confirmDelete d ([], b, s) (fun _ => handleDeleteRun item b s index throws)

/-- `userConfig.emptyItem`: `{ id: 0, name: '', email: '', phone: '' }`. -/
def userEmptyItem : Row := ⟨0, [("name", ""), ("email", ""), ("phone", "")]⟩

/-- Formik `setFieldValue` on one field of one row: `items[i].f = v`.  Field
names come from the config's field list, i.e. from the row's own keys. -/
def setRowField (row : Row) (f v : String) : Row :=
  { row with fields := row.fields.map (fun p => if p.1 = f then (f, v) else p) }

/-- Edit one field of the row at position `i` of the edit buffer. -/
def editField : List Row → Nat → String → String → List Row
  | [], _, _, _ => []
  | row :: rest, 0, f, v => setRowField row f v :: rest
  | row :: rest, i + 1, f, v => row :: editField rest i f v

/-- Identifiers of the persisted (non-sentinel) records of a snapshot. -/
def persistedIds (items : List Row) : List Nat :=
  (items.filter (fun r => decide (r.id ≠ 0))).map Row.id

/-- The §3 invariant: persisted records have pairwise-distinct identifiers. -/
def uniquePersisted (items : List Row) : Prop := (persistedIds items).Nodup

instance (items : List Row) : Decidable (uniquePersisted items) :=
  inferInstanceAs (Decidable (persistedIds items).Nodup)

/-! ### Basic lemmas about the dirty-set computation -/

theorem rowAt_of_getElem? {l : List Row} {j : Nat} {row : Row} (h : l[j]? = some row) :
    rowAt l j = row := by
  simp [rowAt, h]

theorem getElem?_eq_some_rowAt {l : List Row} {j : Nat} (h : j < l.length) :
    l[j]? = some (rowAt l j) := by
  simp [rowAt, List.getElem?_eq_getElem h]

theorem lt_length_of_getElem? {l : List Row} {j : Nat} {row : Row} (h : l[j]? = some row) :
    j < l.length := by
  by_contra hc
  rw [List.getElem?_eq_none (by omega)] at h
  cases h

/-- The filtered marker list is the dirty `(index, row)` pair list with the
indexes cast to `Int`. -/
theorem markDirty_filter_eq (s : List Row) :
    ∀ (b : List Row) (i : Nat),
      (markDirty s i b).filter (fun x => decide (x ≠ -1)) =
        (dirtyPairs s i b).map (fun p => (p.1 : Int)) := by
  intro b
  induction b with
  | nil => intro i; rfl
  | cons item rest ih =>
    intro i
    have hne : ((i : Int) ≠ -1) := by omega
    by_cases h : item.id = 0 ∨ some item ≠ s[i]?
    · simp only [markDirty, dirtyPairs, if_pos h, List.filter_cons, List.map_cons,
        decide_eq_true hne, if_pos trivial, ih (i + 1)]
    · simp only [markDirty, dirtyPairs, if_neg h, List.filter_cons,
        show decide ((-1 : Int) ≠ -1) = false by decide, ih (i + 1)]
      rfl

theorem dirtyIndexes_eq (b s : List Row) :
    dirtyIndexes b s = (dirtyPairs s 0 b).map (fun p => (p.1 : Int)) :=
  markDirty_filter_eq s b 0

theorem mem_dirtyPairs (s : List Row) :
    ∀ (b : List Row) (n : Nat) (p : Nat × Row), p ∈ dirtyPairs s n b →
      n ≤ p.1 ∧ b[p.1 - n]? = some p.2 ∧ (p.2.id = 0 ∨ some p.2 ≠ s[p.1]?) := by
  intro b
  induction b with
  | nil => intro n p hp; simp [dirtyPairs] at hp
  | cons item rest ih =>
    intro n p hp
    unfold dirtyPairs at hp
    have hstep : p ∈ dirtyPairs s (n + 1) rest →
        n ≤ p.1 ∧ (item :: rest)[p.1 - n]? = some p.2 ∧
          (p.2.id = 0 ∨ some p.2 ≠ s[p.1]?) := by
      intro h1
      obtain ⟨h2, h3, h4⟩ := ih (n + 1) p h1
      refine ⟨by omega, ?_, h4⟩
      have : p.1 - n = (p.1 - (n + 1)) + 1 := by omega
      rw [this, List.getElem?_cons_succ]
      exact h3
    by_cases h : item.id = 0 ∨ some item ≠ s[n]?
    · rw [if_pos h] at hp
      rcases List.mem_cons.mp hp with h1 | h1
      · subst h1
        exact ⟨Nat.le_refl n, by simp, h⟩
      · exact hstep h1
    · rw [if_neg h] at hp
      exact hstep hp

theorem dirtyPairs_mem_of (s : List Row) :
    ∀ (b : List Row) (n k : Nat) (row : Row), b[k]? = some row →
      (row.id = 0 ∨ some row ≠ s[n + k]?) → (n + k, row) ∈ dirtyPairs s n b := by
  intro b
  induction b with
  | nil => intro n k row hk; cases k <;> cases hk
  | cons item rest ih =>
    intro n k row hk hcond
    unfold dirtyPairs
    cases k with
    | zero =>
      rw [List.getElem?_cons_zero] at hk
      injection hk with hk
      subst hk
      rw [if_pos (by simpa using hcond)]
      simp
    | succ j =>
      rw [List.getElem?_cons_succ] at hk
      have hmem := ih (n + 1) j row hk (by
        have : n + 1 + j = n + (j + 1) := by omega
        rw [this]; exact hcond)
      have harith : n + (j + 1) = n + 1 + j := by omega
      rw [harith]
      by_cases h : item.id = 0 ∨ some item ≠ s[n]?
      · rw [if_pos h]; exact List.mem_cons_of_mem _ hmem
      · rw [if_neg h]; exact hmem

theorem dirtyPairs_fst_nodup (s : List Row) :
    ∀ (b : List Row) (n : Nat), ((dirtyPairs s n b).map Prod.fst).Nodup := by
  intro b
  induction b with
  | nil => intro n; simp [dirtyPairs]
  | cons item rest ih =>
    intro n
    unfold dirtyPairs
    by_cases h : item.id = 0 ∨ some item ≠ s[n]?
    · rw [if_pos h]
      simp only [List.map_cons, List.nodup_cons]
      refine ⟨?_, ih (n + 1)⟩
      intro hmem
      rcases List.mem_map.mp hmem with ⟨p, hp, hfst⟩
      have := (mem_dirtyPairs s rest (n + 1) p hp).1
      omega
    · rw [if_neg h]; exact ih (n + 1)

/-- Membership in the dirty set, characterised: exactly the buffer positions
whose row carries the sentinel identifier or structurally differs from the
snapshot row at the same position. -/
theorem mem_dirtyIndexes (b s : List Row) (j : Nat) :
    (j : Int) ∈ dirtyIndexes b s ↔
      ∃ row, b[j]? = some row ∧ (row.id = 0 ∨ some row ≠ s[j]?) := by
  rw [dirtyIndexes_eq]
  constructor
  · intro h
    rcases List.mem_map.mp h with ⟨p, hp, hcast⟩
    obtain ⟨-, hget, hcond⟩ := mem_dirtyPairs s b 0 p hp
    have hfst : p.1 = j := by exact_mod_cast hcast
    subst hfst
    exact ⟨p.2, by simpa using hget, hcond⟩
  · rintro ⟨row, hb, hcond⟩
    refine List.mem_map.mpr ⟨(j, row), ?_, rfl⟩
    simpa using dirtyPairs_mem_of s b 0 j row hb (by simpa using hcond)

theorem saveCallsPlanned_eq (b s : List Row) :
    saveCallsPlanned b s = (dirtyPairs s 0 b).map (fun p => callFor p.2) := by
  unfold saveCallsPlanned
  rw [dirtyIndexes_eq, List.map_map]
  apply List.map_congr_left
  intro p hp
  obtain ⟨-, hget, -⟩ := mem_dirtyPairs s b 0 p hp
  simp only [Function.comp, Int.toNat_natCast]
  rw [rowAt_of_getElem? (by simpa using hget)]

theorem dirtyPairs_eq_nil (s : List Row) :
    ∀ (b : List Row) (n : Nat),
      (∀ k row, b[k]? = some row → row.id ≠ 0 ∧ s[n + k]? = some row) →
      dirtyPairs s n b = [] := by
  intro b
  induction b with
  | nil => intro n _; rfl
  | cons item rest ih =>
    intro n h
    obtain ⟨hid, hs⟩ := h 0 item (by simp)
    unfold dirtyPairs
    rw [if_neg (by
      push_neg
      refine ⟨hid, ?_⟩
      rw [show n = n + 0 by omega]
      exact hs.symm)]
    apply ih (n + 1)
    intro k row hk
    have := h (k + 1) row (by simpa using hk)
    rwa [show n + (k + 1) = n + 1 + k by omega] at this

/-! ### Spread-merge of full records of the same shape -/

/-- Spreading a full record `upd` of the same key shape over `base` yields
`upd` itself. -/
theorem spreadFields_self :
    ∀ (base upd : List (String × String)),
      base.map Prod.fst = upd.map Prod.fst → (base.map Prod.fst).Nodup →
      spreadFields base upd = upd := by
  intro base
  induction base with
  | nil =>
    intro upd hkeys _
    have : upd = [] := by simpa using hkeys.symm
    subst this
    rfl
  | cons p bs ih =>
    intro upd hkeys hnodup
    obtain ⟨k, v⟩ := p
    cases upd with
    | nil => simp at hkeys
    | cons q us =>
      obtain ⟨k2, w⟩ := q
      simp only [List.map_cons, List.cons.injEq] at hkeys
      obtain ⟨hk, hkeys2⟩ := hkeys
      subst hk
      simp only [List.map_cons, List.nodup_cons] at hnodup
      obtain ⟨hknotin, hnodup2⟩ := hnodup
      unfold spreadFields
      have hmap : bs.map (fun p =>
          match lookupField ((k, w) :: us) p.1 with
          | some v => (p.1, v)
          | none => p) = bs.map (fun p =>
          match lookupField us p.1 with
          | some v => (p.1, v)
          | none => p) := by
        apply List.map_congr_left
        intro p hp
        have hpk : p.1 ≠ k := by
          intro hc
          exact hknotin (hc ▸ List.mem_map.mpr ⟨p, hp, rfl⟩)
        simp [lookupField, Ne.symm hpk]
      have hfil : us.filter (fun q => (lookupField ((k, v) :: bs) q.1).isNone) =
          us.filter (fun q => (lookupField bs q.1).isNone) := by
        apply List.filter_congr
        intro q hq
        have hqk : q.1 ≠ k := by
          intro hc
          apply hknotin
          rw [hkeys2]
          exact hc ▸ List.mem_map.mpr ⟨q, hq, rfl⟩
        simp [lookupField, Ne.symm hqk]
      simp only [List.map_cons, List.filter_cons]
      rw [show lookupField ((k, w) :: us) k = some w by simp [lookupField]]
      rw [show (lookupField ((k, v) :: bs) k).isNone = false by simp [lookupField]]
      simp only [cond_false, List.cons_append]
      rw [hmap, hfil]
      congr 1
      exact ih us hkeys2 hnodup2

theorem spreadMerge_self (base upd : Row) (hkeys : fieldKeys base = fieldKeys upd)
    (hnodup : (fieldKeys base).Nodup) : spreadMerge base upd = upd := by
  obtain ⟨uid, ufields⟩ := upd
  unfold spreadMerge
  simp only [Row.mk.injEq, true_and]
  exact spreadFields_self base.fields ufields hkeys hnodup

/-! ### Field edit and revert -/

theorem setRowField_revert (row : Row) (f v w : String)
    (hw : ∀ p ∈ row.fields, p.1 = f → p.2 = w) :
    setRowField (setRowField row f v) f w = row := by
  obtain ⟨rid, rfields⟩ := row
  unfold setRowField
  simp only [Row.mk.injEq, List.map_map, true_and]
  have : rfields.map ((fun p : String × String => if p.1 = f then (f, w) else p) ∘
      (fun p : String × String => if p.1 = f then (f, v) else p)) = rfields.map id := by
    apply List.map_congr_left
    intro p hp
    by_cases hpf : p.1 = f
    · have hpw : p.2 = w := hw p hp hpf
      simp [Function.comp, hpf, ← hpw]
      exact Prod.ext hpf.symm rfl
    · simp [Function.comp, hpf]
  rw [this, List.map_id]

theorem editField_revert :
    ∀ (b : List Row) (i : Nat) (f v w : String) (row : Row), b[i]? = some row →
      (∀ p ∈ row.fields, p.1 = f → p.2 = w) →
      editField (editField b i f v) i f w = b := by
  intro b
  induction b with
  | nil => intro i f v w row hb; cases i <;> cases hb
  | cons r rest ih =>
    intro i f v w row hb hw
    cases i with
    | zero =>
      rw [List.getElem?_cons_zero] at hb
      injection hb with hb
      subst hb
      simp only [editField]
      rw [setRowField_revert r f v w hw]
    | succ j =>
      rw [List.getElem?_cons_succ] at hb
      simp only [editField]
      rw [ih j f v w row hb hw]

/-! ### The aligned operating scenario and store evolution under the save loop -/

theorem rowAt_eq_getElem {l : List Row} {j : Nat} (h : j < l.length) : rowAt l j = l[j] := by
  simp [rowAt, List.getElem?_eq_getElem h]

theorem rowAt_id_ne (s : List Row) (hnodup : (s.map Row.id).Nodup) (i j : Nat)
    (hi : i < s.length) (hj : j < s.length) (hij : i ≠ j) :
    (rowAt s i).id ≠ (rowAt s j).id := by
  intro h
  rw [rowAt_eq_getElem hi, rowAt_eq_getElem hj] at h
  have hi2 : i < (s.map Row.id).length := by simpa using hi
  have hj2 : j < (s.map Row.id).length := by simpa using hj
  apply hij
  apply hnodup.getElem_inj_iff.mp
  have hgoal : (s.map Row.id).get ⟨i, hi2⟩ = (s.map Row.id).get ⟨j, hj2⟩ := by
    simp only [List.get_eq_getElem, List.getElem_map]
    exact h
  exact hgoal

theorem rowAt_id_mem (s : List Row) (i : Nat) (hi : i < s.length) :
    (rowAt s i).id ∈ s.map Row.id := by
  rw [rowAt_eq_getElem hi]
  exact List.mem_map.mpr ⟨s[i], List.getElem_mem hi, rfl⟩

/-- Normal operating conditions of the editor, as the spec assumes them: the
buffer extends the snapshot, each snapshot position keeps its non-sentinel
identifier in the buffer, rows appended beyond the snapshot carry the
sentinel, snapshot identifiers are pairwise distinct, the synthesized
creation timestamp is not an existing identifier, and rows of a common
position share the config's field-key shape. -/
def aligned (s b : List Row) (now : Nat) : Prop :=
  s.length ≤ b.length ∧
  (∀ j, j < s.length → (rowAt b j).id = (rowAt s j).id ∧ (rowAt s j).id ≠ 0 ∧
    fieldKeys (rowAt b j) = fieldKeys (rowAt s j) ∧ (fieldKeys (rowAt s j)).Nodup) ∧
  (∀ j, j < b.length → s.length ≤ j → (rowAt b j).id = 0) ∧
  (s.map Row.id).Nodup ∧
  now ∉ s.map Row.id

instance (s b : List Row) (now : Nat) : Decidable (aligned s b now) := by
  unfold aligned
  infer_instance

/-- Running the per-row persistence calls for dirty pairs `L` on top of a
store state `st` that agrees with the buffer on the already-processed
positions `P` and with the snapshot elsewhere: afterwards the store agrees
with the buffer on `P` plus the positions of `L`, and every record beyond the
snapshot length carries the synthesized timestamp identifier. -/
theorem runCalls_inv (s b : List Row) (now : Nat) (hA : aligned s b now) :
    ∀ (L : List (Nat × Row)) (st : List Row) (P : List Nat),
      (∀ p ∈ L, b[p.1]? = some p.2) →
      ((L.map Prod.fst).Nodup) →
      (∀ p ∈ L, p.1 ∉ P) →
      (∀ j, j < s.length → st[j]? = some (if j ∈ P then rowAt b j else rowAt s j)) →
      (∀ j row, s.length ≤ j → st[j]? = some row → row.id = now) →
      (∀ j, j < s.length →
        (runCalls st (L.map fun p => callFor p.2) now)[j]? =
          some (if j ∈ P ++ L.map Prod.fst then rowAt b j else rowAt s j)) ∧
      (∀ j row, s.length ≤ j →
        (runCalls st (L.map fun p => callFor p.2) now)[j]? = some row → row.id = now) := by
  obtain ⟨hlen, hpers, hnew, hnodup, hnow⟩ := hA
  intro L
  induction L with
  | nil =>
    intro st P _ _ _ hst1 hst2
    constructor
    · intro j hj
      simpa [runCalls] using hst1 j hj
    · intro j row hj hget
      exact hst2 j row hj (by simpa [runCalls] using hget)
  | cons hd L ih =>
    intro st P hmem hnd hdisj hst1 hst2
    obtain ⟨i, row⟩ := hd
    have hbi : b[i]? = some row := hmem (i, row) (List.mem_cons_self _ _)
    have hbrow : rowAt b i = row := rowAt_of_getElem? hbi
    have hilen : i < b.length := lt_length_of_getElem? hbi
    rw [List.map_cons, List.nodup_cons] at hnd
    have hinotin : i ∉ L.map Prod.fst := hnd.1
    have hnd2 : (L.map Prod.fst).Nodup := hnd.2
    have hmem2 : ∀ p ∈ L, b[p.1]? = some p.2 := fun p hp => hmem p (List.mem_cons_of_mem _ hp)
    have hdisj2 : ∀ p ∈ L, p.1 ∉ P ++ [i] := by
      intro p hp hc
      rcases List.mem_append.mp hc with h1 | h1
      · exact hdisj p (List.mem_cons_of_mem _ hp) h1
      · have : p.1 = i := by simpa using h1
        exact hinotin (this ▸ List.mem_map.mpr ⟨p, hp, rfl⟩)
    have hrun : runCalls st (((i, row) :: L).map fun p => callFor p.2) now =
        runCalls (applyCall st now (callFor row)) (L.map fun p => callFor p.2) now := rfl
    have happmem : ∀ j, j < s.length →
        ((j ∈ P ++ [i]) = (j ∈ P ++ i :: L.map Prod.fst) → True) := fun _ _ _ => trivial
    by_cases hid : row.id = 0
    · -- the call is a create: the row was appended beyond the snapshot
      have hge : s.length ≤ i := by
        by_contra hc
        push_neg at hc
        have h1 := (hpers i hc).1
        have h2 := (hpers i hc).2.1
        rw [hbrow] at h1
        rw [h1] at hid
        exact h2 hid
      have happly : applyCall st now (callFor row) = st ++ [{ row with id := now }] := by
        simp [applyCall, callFor, hid, createItem]
      rw [hrun, happly]
      have hst1' : ∀ j, j < s.length → (st ++ [{ row with id := now }])[j]? =
          some (if j ∈ P ++ [i] then rowAt b j else rowAt s j) := by
        intro j hj
        have hjst : j < st.length := lt_length_of_getElem? (hst1 j hj)
        rw [List.getElem?_append, if_pos hjst, hst1 j hj]
        have hji : j ≠ i := by omega
        by_cases hjP : j ∈ P
        · rw [if_pos hjP, if_pos (List.mem_append.mpr (Or.inl hjP))]
        · rw [if_neg hjP, if_neg (by
            intro hc
            rcases List.mem_append.mp hc with h1 | h1
            · exact hjP h1
            · exact hji (by simpa using h1))]
      have hst2' : ∀ j row2, s.length ≤ j →
          (st ++ [{ row with id := now }])[j]? = some row2 → row2.id = now := by
        intro j row2 hj hget
        rw [List.getElem?_append] at hget
        by_cases hjst : j < st.length
        · rw [if_pos hjst] at hget
          exact hst2 j row2 hj hget
        · rw [if_neg hjst] at hget
          have hlt1 : j - st.length < 1 := by
            simpa using lt_length_of_getElem? hget
          rw [show j - st.length = 0 by omega, List.getElem?_cons_zero] at hget
          injection hget with hget
          rw [← hget]
      have hres := ih (st ++ [{ row with id := now }]) (P ++ [i]) hmem2 hnd2 hdisj2 hst1' hst2'
      constructor
      · intro j hj
        have := hres.1 j hj
        rwa [show (P ++ [i]) ++ L.map Prod.fst = P ++ i :: L.map Prod.fst by simp] at this
      · exact hres.2
    · -- the call is an update of the matching snapshot position
      have hlt : i < s.length := by
        by_contra hc
        push_neg at hc
        exact hid (hbrow ▸ hnew i hilen hc)
      have hsid : row.id = (rowAt s i).id := hbrow ▸ (hpers i hlt).1
      have hiP : i ∉ P := hdisj (i, row) (List.mem_cons_self _ _)
      have happly : applyCall st now (callFor row) =
          st.map (fun x => if x.id = row.id then spreadMerge x row else x) := by
        simp [applyCall, callFor, hid, updateItem]
      rw [hrun, happly]
      have hst1' : ∀ j, j < s.length →
          (st.map (fun x => if x.id = row.id then spreadMerge x row else x))[j]? =
          some (if j ∈ P ++ [i] then rowAt b j else rowAt s j) := by
        intro j hj
        rw [List.getElem?_map, hst1 j hj, Option.map_some']
        by_cases hji : j = i
        · subst hji
          rw [if_neg hiP, if_pos (List.mem_append.mpr (Or.inr (by simp)))]
          rw [if_pos hsid.symm]
          congr 1
          rw [spreadMerge_self (rowAt s j) row
            (by rw [← hbrow]; exact ((hpers j hj).2.2.1).symm)
            ((hpers j hj).2.2.2)]
          exact hbrow.symm
        · have hxid : (if j ∈ P then rowAt b j else rowAt s j).id = (rowAt s j).id := by
            by_cases hjP : j ∈ P
            · rw [if_pos hjP]; exact (hpers j hj).1
            · rw [if_neg hjP]
          have hne : (if j ∈ P then rowAt b j else rowAt s j).id ≠ row.id := by
            rw [hxid, hsid]
            exact rowAt_id_ne s hnodup j i hj hlt hji
          rw [if_neg hne]
          congr 1
          by_cases hjP : j ∈ P
          · rw [if_pos hjP, if_pos (List.mem_append.mpr (Or.inl hjP))]
          · rw [if_neg hjP, if_neg (by
              intro hc
              rcases List.mem_append.mp hc with h1 | h1
              · exact hjP h1
              · exact hji (by simpa using h1))]
      have hst2' : ∀ j row2, s.length ≤ j →
          (st.map (fun x => if x.id = row.id then spreadMerge x row else x))[j]? =
            some row2 → row2.id = now := by
        intro j row2 hj hget
        rw [List.getElem?_map] at hget
        cases hsti : st[j]? with
        | none => rw [hsti] at hget; cases hget
        | some x =>
          rw [hsti] at hget
          have hxnow : x.id = now := hst2 j x hj hsti
          have hxne : x.id ≠ row.id := by
            rw [hxnow, hsid]
            intro hc
            exact hnow (hc ▸ rowAt_id_mem s i hlt)
          rw [Option.map_some', if_neg hxne] at hget
          injection hget with hget
          rw [← hget]
          exact hxnow
      have hres := ih (st.map (fun x => if x.id = row.id then spreadMerge x row else x))
        (P ++ [i]) hmem2 hnd2 hdisj2 hst1' hst2'
      constructor
      · intro j hj
        have := hres.1 j hj
        rwa [show (P ++ [i]) ++ L.map Prod.fst = P ++ i :: L.map Prod.fst by simp] at this
      · exact hres.2

/-- Store snapshot after the first `f` persistence calls of a save run, in the
aligned scenario: processed positions hold the buffer row, unprocessed ones
the snapshot row, and records beyond the snapshot carry the timestamp id. -/
theorem save_prefix_state (s b : List Row) (now f : Nat) (hA : aligned s b now) :
    (∀ j, j < s.length →
      (runCalls s ((saveCallsPlanned b s).take f) now)[j]? =
        some (if j ∈ ((dirtyPairs s 0 b).take f).map Prod.fst then rowAt b j
          else rowAt s j)) ∧
    (∀ j row, s.length ≤ j →
      (runCalls s ((saveCallsPlanned b s).take f) now)[j]? = some row → row.id = now) := by
  have hplan : (saveCallsPlanned b s).take f =
      ((dirtyPairs s 0 b).take f).map (fun p => callFor p.2) := by
    rw [saveCallsPlanned_eq, List.map_take]
  have h1 : ∀ p ∈ (dirtyPairs s 0 b).take f, b[p.1]? = some p.2 := by
    intro p hp
    have hmem := mem_dirtyPairs s b 0 p (List.take_subset f _ hp)
    simpa using hmem.2.1
  have h2 : (((dirtyPairs s 0 b).take f).map Prod.fst).Nodup :=
    List.Nodup.sublist ((List.take_sublist f _).map Prod.fst) (dirtyPairs_fst_nodup s b 0)
  have h3 : ∀ p ∈ (dirtyPairs s 0 b).take f, p.1 ∉ ([] : List Nat) := by
    intro p _
    exact List.not_mem_nil p.1
  have h4 : ∀ j, j < s.length →
      s[j]? = some (if j ∈ ([] : List Nat) then rowAt b j else rowAt s j) := by
    intro j hj
    rw [if_neg (List.not_mem_nil j)]
    exact getElem?_eq_some_rowAt hj
  have h5 : ∀ j row, s.length ≤ j → s[j]? = some row → row.id = now := by
    intro j row hj hget
    have := lt_length_of_getElem? hget
    omega
  have h := runCalls_inv s b now hA ((dirtyPairs s 0 b).take f) s [] h1 h2 h3 h4 h5
  rw [hplan]
  simpa using h

/-- After the first `f` calls of an aligned save run, a position is dirty
against the resulting store snapshot exactly when it was dirty before and
either carries the sentinel identifier (its create does not clear it) or was
not among the `f` processed positions. -/
theorem dirty_after_partial_save (s b : List Row) (now f : Nat) (hA : aligned s b now)
    (j : Nat) :
    (j : Int) ∈ dirtyIndexes b (runCalls s ((saveCallsPlanned b s).take f) now) ↔
      ((j : Int) ∈ dirtyIndexes b s ∧
        ((rowAt b j).id = 0 ∨ j ∉ ((dirtyPairs s 0 b).take f).map Prod.fst)) := by
  obtain ⟨hst1, _⟩ := save_prefix_state s b now f hA
  obtain ⟨hlen, hpers, hnew, -, -⟩ := hA
  rw [mem_dirtyIndexes, mem_dirtyIndexes]
  by_cases hjb : j < b.length
  · have hbj : b[j]? = some (rowAt b j) := getElem?_eq_some_rowAt hjb
    by_cases hjs : j < s.length
    · have hidj : (rowAt b j).id = (rowAt s j).id := (hpers j hjs).1
      have hnz : (rowAt s j).id ≠ 0 := (hpers j hjs).2.1
      have hsj : s[j]? = some (rowAt s j) := getElem?_eq_some_rowAt hjs
      have hbid : (rowAt b j).id ≠ 0 := by rw [hidj]; exact hnz
      rw [hst1 j hjs]
      by_cases hproc : j ∈ ((dirtyPairs s 0 b).take f).map Prod.fst
      · rw [if_pos hproc]
        constructor
        · rintro ⟨row, hrow, hcond⟩
          rw [hbj] at hrow
          injection hrow with hrow
          subst hrow
          rcases hcond with h | h
          · exact absurd h hbid
          · exact absurd rfl h
        · rintro ⟨-, h | h⟩
          · exact absurd h hbid
          · exact absurd hproc h
      · rw [if_neg hproc]
        constructor
        · rintro ⟨row, hrow, hcond⟩
          rw [hbj] at hrow
          injection hrow with hrow
          subst hrow
          refine ⟨⟨rowAt b j, hbj, by rw [hsj]; simpa using hcond⟩, Or.inr hproc⟩
        · rintro ⟨⟨row, hrow, hcond⟩, -⟩
          rw [hbj] at hrow
          injection hrow with hrow
          subst hrow
          exact ⟨rowAt b j, hbj, by rw [hsj] at hcond; simpa using hcond⟩
    · have hzero : (rowAt b j).id = 0 := hnew j hjb (by omega)
      constructor
      · intro _
        exact ⟨⟨rowAt b j, hbj, Or.inl hzero⟩, Or.inl hzero⟩
      · intro _
        exact ⟨rowAt b j, hbj, Or.inl hzero⟩
  · have hbj : b[j]? = none := List.getElem?_eq_none (by omega)
    constructor
    · rintro ⟨row, hrow, -⟩
      rw [hbj] at hrow
      cases hrow
    · rintro ⟨⟨row, hrow, -⟩, -⟩
      rw [hbj] at hrow
      cases hrow

/-- A buffer in which every row equals its snapshot counterpart and has a
non-sentinel identifier has an empty dirty set; `handleSubmit` then issues no
calls, touches nothing, and shows the nothing-to-save notification. -/
theorem saveRun_clean (b s fb : List Row) (now : Nat) (failAt : Option Nat)
    (h : ∀ (k : Nat) (row : Row), b[k]? = some row → row.id ≠ 0 ∧ s[k]? = some row) :
    saveRun b s fb now failAt = ⟨[], s, fb, .info⟩ := by
  have hdp : dirtyPairs s 0 b = [] := by
    apply dirtyPairs_eq_nil s b 0
    intro k row hk
    obtain ⟨h1, h2⟩ := h k row hk
    refine ⟨h1, ?_⟩
    simpa using h2
  have hplanned : saveCallsPlanned b s = [] := by
    rw [saveCallsPlanned_eq, hdp]
    rfl
  unfold saveRun
  simp [hplanned]

/-- All calls of an aligned equal-length save run are updates, so the store
snapshot keeps its length and ends up equal to the submitted buffer. -/
theorem runCalls_updates_length :
    ∀ (calls : List StoreCall) (st : List Row) (now : Nat),
      (∀ c ∈ calls, ∃ id row, c = StoreCall.update id row) →
      (runCalls st calls now).length = st.length := by
  intro calls
  induction calls with
  | nil => intro st now _; rfl
  | cons c cs ih =>
    intro st now h
    obtain ⟨id, row, hc⟩ := h c (List.mem_cons_self _ _)
    subst hc
    have : runCalls st (StoreCall.update id row :: cs) now =
        runCalls (updateItem st id row) cs now := rfl
    rw [this, ih _ now (fun c hc => h c (List.mem_cons_of_mem _ hc))]
    simp [updateItem]

theorem storeItems_success_eq_buffer (s b : List Row) (now : Nat) (hA : aligned s b now)
    (hlen : s.length = b.length) :
    runCalls s (saveCallsPlanned b s) now = b := by
  have hA' := hA
  obtain ⟨-, hpers, -, -, -⟩ := hA'
  have hupd : ∀ c ∈ saveCallsPlanned b s, ∃ id row, c = StoreCall.update id row := by
    rw [saveCallsPlanned_eq]
    intro c hc
    rcases List.mem_map.mp hc with ⟨p, hp, hcall⟩
    obtain ⟨-, hget, -⟩ := mem_dirtyPairs s b 0 p hp
    have hplt : p.1 < b.length := lt_length_of_getElem? (by simpa using hget)
    have hrow : rowAt b p.1 = p.2 := rowAt_of_getElem? (by simpa using hget)
    have hnz : p.2.id ≠ 0 := by
      rw [← hrow]
      rw [(hpers p.1 (by omega)).1]
      exact (hpers p.1 (by omega)).2.1
    refine ⟨p.2.id, p.2, ?_⟩
    rw [← hcall]
    simp [callFor, hnz]
  have hlen2 : (runCalls s (saveCallsPlanned b s) now).length = s.length :=
    runCalls_updates_length _ s now hupd
  have hfull : (saveCallsPlanned b s).take (saveCallsPlanned b s).length =
      saveCallsPlanned b s := List.take_length _
  obtain ⟨hst1, -⟩ := save_prefix_state s b now (saveCallsPlanned b s).length hA
  rw [hfull] at hst1
  have htakedp : (dirtyPairs s 0 b).take (saveCallsPlanned b s).length = dirtyPairs s 0 b := by
    rw [saveCallsPlanned_eq, List.length_map]
    exact List.take_length _
  rw [htakedp] at hst1
  apply List.ext_getElem?
  intro j
  by_cases hjs : j < s.length
  · rw [hst1 j hjs]
    by_cases hproc : j ∈ (dirtyPairs s 0 b).map Prod.fst
    · rw [if_pos hproc]
      exact (getElem?_eq_some_rowAt (by omega)).symm
    · rw [if_neg hproc]
      have hbj : b[j]? = some (rowAt b j) := getElem?_eq_some_rowAt (by omega)
      have hclean : ¬ some (rowAt b j) ≠ s[j]? := by
        intro hc
        apply hproc
        exact List.mem_map.mpr ⟨(j, rowAt b j),
          by simpa using dirtyPairs_mem_of s b 0 j (rowAt b j) hbj (Or.inr (by simpa using hc)),
          rfl⟩
      push_neg at hclean
      have hsj : s[j]? = some (rowAt s j) := getElem?_eq_some_rowAt hjs
      rw [hsj] at hclean
      injection hclean with hclean
      rw [hbj, hclean]
  · rw [List.getElem?_eq_none (by omega), List.getElem?_eq_none (by omega)]

/-! ### Concrete rows used to instantiate the results -/

def rowA : Row := ⟨1, [("name", "A"), ("email", "a@x.com"), ("phone", "1")]⟩

def rowA2 : Row := ⟨1, [("name", "A2"), ("email", "a@x.com"), ("phone", "1")]⟩

def rowB : Row := ⟨2, [("name", "B"), ("email", "b@x.com"), ("phone", "2")]⟩

def rowNew : Row := ⟨0, [("name", "N"), ("email", "n@x.com"), ("phone", "3")]⟩

def rowNew2 : Row := ⟨0, [("name", "M"), ("email", "m@x.com"), ("phone", "4")]⟩

/-! ### Claims -/

/-- C1: for equal-length buffer and snapshot, `save()` marks dirty exactly the
positions whose buffer row structurally differs from the snapshot row at the
same index or carries the sentinel identifier `0`; for each such position, in
ascending order and one call at a time (the loop awaits each call before the
next, embedded here as the sequential fold `runCalls`), it issues a `create`
for sentinel rows and an `update` keyed by the row's identifier otherwise;
and when all calls succeed `resetForm({ values })` makes the just-submitted
buffer the new diff baseline. -/
theorem save_spec (b s fb : List Row) (now : Nat) (hlen : b.length = s.length) :
    (∀ i : Nat, ((i : Int) ∈ dirtyIndexes b s ↔
      ∃ rb rs, b[i]? = some rb ∧ s[i]? = some rs ∧ (rb.id = 0 ∨ rb ≠ rs))) ∧
    (saveRun b s fb now none).callsMade =
      (dirtyPairs s 0 b).map (fun p =>
        if p.2.id = 0 then StoreCall.create p.2 else StoreCall.update p.2.id p.2) ∧
    (dirtyIndexes b s ≠ [] → (saveRun b s fb now none).formBaseline = b) ∧
    (saveRun b s fb now none).toast =
      (if dirtyIndexes b s = [] then Toast.info
        else Toast.success (dirtyIndexes b s).length) := by
  refine ⟨?_, ?_, ?_, ?_⟩
  · intro i
    rw [mem_dirtyIndexes]
    constructor
    · rintro ⟨row, hb, hcond⟩
      have hib : i < b.length := lt_length_of_getElem? hb
      have his : i < s.length := by omega
      refine ⟨row, rowAt s i, hb, getElem?_eq_some_rowAt his, ?_⟩
      rcases hcond with h | h
      · exact Or.inl h
      · refine Or.inr ?_
        intro hc
        apply h
        rw [hc]
        exact (getElem?_eq_some_rowAt his).symm
    · rintro ⟨rb, rs, hb, hs, hcond⟩
      refine ⟨rb, hb, ?_⟩
      rcases hcond with h | h
      · exact Or.inl h
      · refine Or.inr ?_
        rw [hs]
        intro hc
        injection hc with hc
        exact h hc
  · have hcalls : (saveRun b s fb now none).callsMade = saveCallsPlanned b s := by
      unfold saveRun
      by_cases hp : saveCallsPlanned b s = [] <;> simp [hp]
    rw [hcalls, saveCallsPlanned_eq]
    apply List.map_congr_left
    intro p _
    simp [callFor]
  · intro hne
    have hp : saveCallsPlanned b s ≠ [] := by
      rw [saveCallsPlanned_eq]
      rw [dirtyIndexes_eq] at hne
      intro hc
      rw [List.map_eq_nil_iff] at hc
      exact hne (by rw [hc]; rfl)
    unfold saveRun
    simp [hp]
  · by_cases hdp : dirtyPairs s 0 b = []
    · have hp : saveCallsPlanned b s = [] := by rw [saveCallsPlanned_eq, hdp]; rfl
      have hd0 : dirtyIndexes b s = [] := by rw [dirtyIndexes_eq, hdp]; rfl
      unfold saveRun
      simp [hp, hd0]
    · have hp : saveCallsPlanned b s ≠ [] := by
        rw [saveCallsPlanned_eq]
        simpa using hdp
      have hd0 : dirtyIndexes b s ≠ [] := by
        rw [dirtyIndexes_eq]
        simpa using hdp
      unfold saveRun
      simp [hp, hd0, hdp, saveCallsPlanned_eq, dirtyIndexes_eq]

theorem save_spec_witness :
    (saveRun [rowA2, rowB] [rowA, rowB] [rowA, rowB] 99 none).callsMade =
      [StoreCall.update 1 rowA2] := by
  have h := save_spec [rowA2, rowB] [rowA, rowB] [rowA, rowB] 99 rfl
  rw [h.2.1]
  decide

/-- C2 as stated is false on the code: in a run whose second call (a create)
throws, the first call — a create for the sentinel row at position 0 — has
already succeeded, yet position 0 is still in the dirty set computed against
the resulting baseline, because the buffer row keeps the sentinel identifier
while the store appended a separately synthesized record. -/
theorem save_failure_counterexample :
    (saveCallsPlanned [rowNew, rowNew2] []).take 1 = [StoreCall.create rowNew] ∧
    (saveRun [rowNew, rowNew2] [] [] 100 (some 1)).callsMade
      = [StoreCall.create rowNew, StoreCall.create rowNew2] ∧
    (saveRun [rowNew, rowNew2] [] [] 100 (some 1)).toast = Toast.error ∧
    (0 : Int) ∈ dirtyIndexes [rowNew, rowNew2]
      (saveRun [rowNew, rowNew2] [] [] 100 (some 1)).storeItems := by
  decide

/-- C2 (amended): when the `f`-th persistence call of an aligned save run
throws, no call after it is attempted, the failure toast is shown, the form
baseline is not reset, the store reflects exactly the `f` completed calls,
and a position remains dirty against the resulting baseline iff it was dirty
before and either carries the sentinel identifier (a completed create does
not clear its row) or was not among the `f` completed positions — i.e. rows
whose update completed are clean, rows whose create completed stay dirty. -/
theorem save_failure_amended (b s fb : List Row) (now f : Nat) (hA : aligned s b now)
    (hf : f < (saveCallsPlanned b s).length) :
    (saveRun b s fb now (some f)).callsMade = (saveCallsPlanned b s).take (f + 1) ∧
    (saveRun b s fb now (some f)).toast = Toast.error ∧
    (saveRun b s fb now (some f)).formBaseline = fb ∧
    (saveRun b s fb now (some f)).storeItems =
      runCalls s ((saveCallsPlanned b s).take f) now ∧
    (∀ j : Nat, (j : Int) ∈ dirtyIndexes b (saveRun b s fb now (some f)).storeItems ↔
      ((j : Int) ∈ dirtyIndexes b s ∧
        ((rowAt b j).id = 0 ∨ j ∉ ((dirtyPairs s 0 b).take f).map Prod.fst))) := by
  have hp : saveCallsPlanned b s ≠ [] := by
    intro hc
    rw [hc] at hf
    simp at hf
  have hout : saveRun b s fb now (some f) =
      ⟨(saveCallsPlanned b s).take (f + 1),
        runCalls s ((saveCallsPlanned b s).take f) now, fb, .error⟩ := by
    unfold saveRun
    simp [hp, hf]
  rw [hout]
  refine ⟨rfl, rfl, rfl, rfl, ?_⟩
  intro j
  exact dirty_after_partial_save s b now f hA j

theorem save_failure_amended_witness :
    (saveRun [rowA2, rowNew] [rowA] [rowA] 50 (some 1)).toast = Toast.error := by
  exact (save_failure_amended [rowA2, rowNew] [rowA] [rowA] 50 1
    (by decide) (by decide)).2.1

/-- C3 as stated is false on the code: a successful save of a buffer holding
one sentinel row issues its create, but the buffer row keeps identifier 0
while the baseline gains a synthesized record, so the buffer does not equal
the new baseline and an immediate second save issues a duplicate create
rather than zero calls. -/
theorem save_idempotent_counterexample :
    (saveRun [rowNew] [] [] 50 none).toast = Toast.success 1 ∧
    (saveRun [rowNew] [] [] 50 none).storeItems ≠ [rowNew] ∧
    (saveRun [rowNew] (saveRun [rowNew] [] [] 50 none).storeItems
      (saveRun [rowNew] [] [] 50 none).formBaseline 51 none).callsMade
      = [StoreCall.create rowNew] := by
  decide

/-- C3 (amended): when buffer and snapshot have equal length and every buffer
row keeps its snapshot row's non-sentinel identifier (the aligned scenario
with no appended rows), a successful save leaves the store baseline equal to
the submitted buffer, and an immediate second save with no intervening edits
computes an empty dirty set: zero persistence calls and the nothing-to-save
notification.  A sentinel row breaks the property (see the counterexample). -/
theorem save_idempotent_amended (b s fb fb2 : List Row) (now now2 : Nat)
    (hA : aligned s b now) (hlen : s.length = b.length) :
    (saveRun b s fb now none).storeItems = b ∧
    (saveRun b (saveRun b s fb now none).storeItems fb2 now2 none).callsMade = [] ∧
    (saveRun b (saveRun b s fb now none).storeItems fb2 now2 none).toast = Toast.info := by
  have hA' := hA
  obtain ⟨-, hpers, -, -, -⟩ := hA'
  have hstore : (saveRun b s fb now none).storeItems = b := by
    unfold saveRun
    by_cases hp : saveCallsPlanned b s = []
    · show (if saveCallsPlanned b s = [] then
          (⟨[], s, fb, .info⟩ : SaveOutcome)
        else ⟨saveCallsPlanned b s, runCalls s (saveCallsPlanned b s) now, b,
          .success (saveCallsPlanned b s).length⟩).storeItems = b
      rw [if_pos hp]
      show s = b
      have hdp : dirtyPairs s 0 b = [] := by
        have := saveCallsPlanned_eq b s
        rw [hp] at this
        exact (List.map_eq_nil_iff.mp this.symm)
      apply List.ext_getElem?
      intro j
      by_cases hjs : j < s.length
      · have hbj : b[j]? = some (rowAt b j) := getElem?_eq_some_rowAt (by omega)
        have hsj : s[j]? = some (rowAt b j) := by
          by_contra hc
          have hmem := dirtyPairs_mem_of s b 0 j (rowAt b j) hbj
            (Or.inr (by simpa using fun h => hc h.symm))
          rw [hdp] at hmem
          cases hmem
        rw [hsj, hbj]
      · rw [List.getElem?_eq_none (by omega), List.getElem?_eq_none (by omega)]
    · show (if saveCallsPlanned b s = [] then
          (⟨[], s, fb, .info⟩ : SaveOutcome)
        else ⟨saveCallsPlanned b s, runCalls s (saveCallsPlanned b s) now, b,
          .success (saveCallsPlanned b s).length⟩).storeItems = b
      rw [if_neg hp]
      exact storeItems_success_eq_buffer s b now hA hlen
  have hbclean : ∀ (k : Nat) (row : Row), b[k]? = some row →
      row.id ≠ 0 ∧ b[k]? = some row := by
    intro k row hk
    refine ⟨?_, hk⟩
    have hkb : k < b.length := lt_length_of_getElem? hk
    have hks : k < s.length := by omega
    have := (hpers k hks).1
    rw [rowAt_of_getElem? hk] at this
    rw [this]
    exact (hpers k hks).2.1
  have hsecond := saveRun_clean b b fb2 now2 none hbclean
  rw [hstore, hsecond]
  exact ⟨rfl, rfl, rfl⟩

theorem save_idempotent_amended_witness :
    (saveRun [rowA2] (saveRun [rowA2] [rowA] [rowA] 99 none).storeItems
      [rowA2] 100 none).callsMade = [] := by
  exact (save_idempotent_amended [rowA2] [rowA] [rowA] [rowA2] 99 100
    (by decide) (by decide)).2.1

/-- C4 as stated is false on the code: `createItem` appends a record whose
identifier is the raw clock value `Date.now()`; creating while the clock
value coincides with an existing identifier (concretely: snapshot `[rowA]`
with identifier 1 and a create at timestamp 1) yields two persisted records
with the same identifier. -/
theorem unique_ids_counterexample :
    uniquePersisted [rowA] ∧ ¬ uniquePersisted (createItem [rowA] rowNew 1) := by
  decide

/-- C4 (amended): `deleteItem` always preserves distinctness of persisted
identifiers; `updateItem` preserves it whenever the submitted record keeps
the targeted identifier (as every caller in the repository does); and
`createItem` preserves it provided the synthesized timestamp is not an
already-persisted identifier. -/
theorem store_ops_unique_amended (items : List Row) (id now : Nat) (item : Row) :
    (uniquePersisted items → uniquePersisted (deleteItem items id)) ∧
    (uniquePersisted items → item.id = id → uniquePersisted (updateItem items id item)) ∧
    (uniquePersisted items → now ∉ persistedIds items →
      uniquePersisted (createItem items item now)) := by
  refine ⟨?_, ?_, ?_⟩
  · intro h
    have hsub : List.Sublist ((deleteItem items id).filter (fun r => decide (r.id ≠ 0)))
        (items.filter (fun r => decide (r.id ≠ 0))) := by
      unfold deleteItem
      exact (List.filter_sublist items).filter _
    exact List.Nodup.sublist (hsub.map Row.id) h
  · intro h hid
    have hids : persistedIds (updateItem items id item) = persistedIds items := by
      clear h
      unfold updateItem persistedIds
      induction items with
      | nil => rfl
      | cons r rest ih =>
        have hgid : (if r.id = id then spreadMerge r item else r).id = r.id := by
          by_cases hr : r.id = id
          · rw [if_pos hr]
            show item.id = r.id
            rw [hid, hr]
          · rw [if_neg hr]
        simp only [List.map_cons, List.filter_cons, hgid]
        by_cases hz : r.id ≠ 0
        · simpa [hz, hgid] using ih
        · simpa [hz] using ih
    unfold uniquePersisted
    rw [hids]
    exact h
  · intro h hnotin
    have happ : persistedIds (createItem items item now) =
        persistedIds items ++ persistedIds [{ item with id := now }] := by
      unfold createItem persistedIds
      rw [List.filter_append, List.map_append]
    unfold uniquePersisted
    rw [happ]
    by_cases hz : now = 0
    · have : persistedIds [{ item with id := now }] = [] := by
        simp [persistedIds, hz]
      rw [this, List.append_nil]
      exact h
    · have : persistedIds [{ item with id := now }] = [now] := by
        simp [persistedIds, hz]
      rw [this]
      exact h.append (List.nodup_singleton now)
        (fun a ha hax => hnotin (by simp at hax; subst hax; exact ha))

theorem store_ops_unique_amended_witness :
    uniquePersisted (deleteItem [rowA, rowB] 1) ∧
    uniquePersisted (updateItem [rowA] 1 rowA2) ∧
    uniquePersisted (createItem [rowA] rowNew 50) := by
  refine ⟨?_, ?_, ?_⟩
  · exact (store_ops_unique_amended [rowA, rowB] 1 50 rowA2).1 (by decide)
  · exact (store_ops_unique_amended [rowA] 1 50 rowA2).2.1 (by decide) (by decide)
  · exact (store_ops_unique_amended [rowA] 1 50 rowNew).2.2 (by decide) (by decide)

theorem eraseIdx_append_singleton (l : List Row) (x : Row) :
    (l ++ [x]).eraseIdx l.length = l := by
  induction l with
  | nil => rfl
  | cons a as ih => simpa using ih

/-- C5: the confirmed deletion path never issues a delete call for a row
whose identifier is the sentinel `0`; in particular, a row appended from
`userConfig.emptyItem` (identifier 0) and then deleted with confirmation
produces zero persistence calls and restores the buffer, whether or not the
(never-issued) call would have thrown. -/
theorem delete_sentinel_spec :
    (∀ (item : Row) (b s : List Row) (index : Nat) (throws : Bool), item.id = 0 →
      (handleDeleteRun item b s index throws).1 = []) ∧
    (∀ (b s : List Row) (throws : Bool),
      deleteFlow .confirm userEmptyItem (b ++ [userEmptyItem]) s b.length throws
        = ([], b, s)) := by
  constructor
  · intro item b s index throws hid
    simp [handleDeleteRun, hid]
  · intro b s throws
    show handleDeleteRun userEmptyItem (b ++ [userEmptyItem]) s b.length throws = ([], b, s)
    rw [show handleDeleteRun userEmptyItem (b ++ [userEmptyItem]) s b.length throws
        = ([], (b ++ [userEmptyItem]).eraseIdx b.length, s) from rfl]
    rw [eraseIdx_append_singleton]

theorem delete_sentinel_spec_witness :
    (handleDeleteRun rowNew [rowNew] [] 0 false).1 = [] ∧
    deleteFlow .confirm userEmptyItem ([rowA] ++ [userEmptyItem]) [rowA] 1 true
      = ([], [rowA], [rowA]) := by
  refine ⟨delete_sentinel_spec.1 rowNew [rowNew] [] 0 false rfl, ?_⟩
  exact delete_sentinel_spec.2 [rowA] [rowA] true

/-- C6: dirty detection is by structural value equality against the snapshot,
not by touch tracking: editing a field of a persisted row and then writing
the original value back restores the buffer exactly, leaves the dirty set
unchanged, and in particular the reverted row is clean again whenever it
matches its snapshot row. -/
theorem edit_revert_clean (b s : List Row) (i : Nat) (f v w : String) (row : Row)
    (hb : b[i]? = some row) (hw : ∀ p ∈ row.fields, p.1 = f → p.2 = w) :
    editField (editField b i f v) i f w = b ∧
    dirtyIndexes (editField (editField b i f v) i f w) s = dirtyIndexes b s ∧
    (row.id ≠ 0 → s[i]? = some row →
      (i : Int) ∉ dirtyIndexes (editField (editField b i f v) i f w) s) := by
  have hrev := editField_revert b i f v w row hb hw
  refine ⟨hrev, by rw [hrev], ?_⟩
  intro hid hs
  rw [hrev, mem_dirtyIndexes]
  rintro ⟨row2, hb2, hcond⟩
  rw [hb] at hb2
  injection hb2 with hb2
  subst hb2
  rcases hcond with h | h
  · exact hid h
  · rw [hs] at h
    exact h rfl

theorem edit_revert_clean_witness :
    (0 : Int) ∉ dirtyIndexes (editField (editField [rowA] 0 "name" "X") 0 "name" "A")
      [rowA] := by
  exact (edit_revert_clean [rowA] [rowA] 0 "name" "X" "A" rowA rfl
    (by decide)).2.2 (by decide) rfl

/-- C7: a buffer whose rows all equal their snapshot counterparts and carry
non-sentinel identifiers yields an empty dirty set: `handleSubmit` issues no
persistence calls, mutates neither the store snapshot nor the form baseline,
and shows the nothing-to-save notification. -/
theorem save_noop_clean (b s fb : List Row) (now : Nat) (failAt : Option Nat)
    (h : ∀ (k : Nat) (row : Row), b[k]? = some row → row.id ≠ 0 ∧ s[k]? = some row) :
    (saveRun b s fb now failAt).callsMade = [] ∧
    (saveRun b s fb now failAt).storeItems = s ∧
    (saveRun b s fb now failAt).formBaseline = fb ∧
    (saveRun b s fb now failAt).toast = Toast.info := by
  rw [saveRun_clean b s fb now failAt h]
  exact ⟨rfl, rfl, rfl, rfl⟩

theorem save_noop_clean_witness :
    (saveRun [rowA] [rowA] [rowA] 9 none).callsMade = [] ∧
    (saveRun [rowA] [rowA] [rowA] 9 none).toast = Toast.info := by
  have h := save_noop_clean [rowA] [rowA] [rowA] 9 none (by
    intro k row hk
    cases k with
    | zero =>
      rw [List.getElem?_cons_zero] at hk
      injection hk with hk
      subst hk
      exact ⟨by decide, rfl⟩
    | succ n => simp at hk)
  exact ⟨h.1, h.2.2.2⟩

/-- C8 as stated is false on the code: the confirmed handler runs
`remove(index)` only after `await onDelete(item.id)` resolves, so when the
delete call throws, the confirmed persisted row (here `rowB`, identifier 2)
is not removed from the edit buffer. -/
theorem delete_always_removes_counterexample :
    (deleteFlow .confirm rowB [rowB] [rowB] 0 true).1 = [StoreCall.delete 2] ∧
    (deleteFlow .confirm rowB [rowB] [rowB] 0 true).2.1 = [rowB] := by
  decide

/-- C8 (amended): on confirmation the row is removed from the edit buffer
when it is unpersisted (no call issued) or when the issued delete call does
not throw; when the call for a persisted row throws, the call was attempted
but the row remains in the buffer. -/
theorem delete_removes_amended (item : Row) (b s : List Row) (index : Nat) (throws : Bool) :
    ((item.id = 0 ∨ throws = false) →
      (handleDeleteRun item b s index throws).2.1 = b.eraseIdx index) ∧
    (item.id ≠ 0 →
      (handleDeleteRun item b s index throws).1 = [StoreCall.delete item.id]) ∧
    (item.id ≠ 0 → throws = true → (handleDeleteRun item b s index throws).2.1 = b) := by
  by_cases hid : item.id = 0
  · refine ⟨fun _ => ?_, fun hc => absurd hid hc, fun hc _ => absurd hid hc⟩
    simp [handleDeleteRun, hid]
  · cases throws with
    | true =>
      refine ⟨?_, fun _ => by simp [handleDeleteRun, hid], fun _ _ => by
        simp [handleDeleteRun, hid]⟩
      rintro (h | h)
      · exact absurd h hid
      · cases h
    | false =>
      exact ⟨fun _ => by simp [handleDeleteRun, hid], fun _ => by
        simp [handleDeleteRun, hid], fun _ hc => by cases hc⟩

theorem delete_removes_amended_witness :
    (handleDeleteRun rowNew [rowNew] [] 0 false).2.1 = [] := by
  have h := (delete_removes_amended rowNew [rowNew] [] 0 false).1 (Or.inl rfl)
  rw [h]
  rfl

/-- C9: when the confirmation toast is cancelled or expires, no persistence
call is made and the collection state is untouched: the edit buffer and the
store snapshot are returned unchanged, so the row is still present in both. -/
theorem cancel_delete_frame (d : ConfirmDecision) (item : Row) (b s : List Row)
    (index : Nat) (throws : Bool) (hd : d ≠ .confirm) :
    deleteFlow d item b s index throws = ([], b, s) := by
  cases d with
  | confirm => exact absurd rfl hd
  | cancel => rfl
  | expire => rfl

theorem cancel_delete_frame_witness :
    deleteFlow .cancel rowB [rowB] [rowB] 0 false = ([], [rowB], [rowB]) :=
  cancel_delete_frame .cancel rowB [rowB] [rowB] 0 false (by decide)

/-- C10: `load()` without a transform function keeps exactly the first five
records of the response in their original order (`data.slice(0, 5)`) and
silently discards the rest. -/
theorem fetch_default_take5 (data : List Row) (i : Nat) :
    fetchItems data none = data.take 5 ∧
    (fetchItems data none).length = min 5 data.length ∧
    (fetchItems data none)[i]? = if i < 5 then data[i]? else none := by
  refine ⟨rfl, ?_, ?_⟩
  · simp [fetchItems]
  · simp [fetchItems, List.getElem?_take]

end Crud
